import Mathlib

/-!
Verification of the Numitron six-digit clock display core
(Bruce E. Hall, Numitron-Clock repository).

The definitions below are a shallow embedding of the display routines of
the main sketch (glyph table `knownChars`/`segData`, lookup `alpha`,
serial transport `writeDisplay`, brightness control `setBrightness`, and
the encoders `showTime`, `showDate`, `showString`) and of the tutorial
sketch table `segments`.  C `int` values are modelled as `Int` with C
truncated division (`Int.tdiv` / `Int.tmod`); an array access whose index
may leave the array bounds is modelled as an `Option`-returning access.
-/

namespace Numitron

/-- Characters renderable on the 7-segment display, in table order
(the global constant `knownChars` of the main sketch).  The two entries
written with `Char.ofNat` are the apostrophe (code 39) and the double
quote (code 34). -/
def knownChars : List Char :=
  ['0', '1', '2', '3', '4', '5', '6', '7', '8', '9',
   'A', 'b', 'C', 'c', 'd', 'E', 'F', 'G', 'H', 'h',
   'I', 'i', 'J', 'L', 'l', 'N', 'n', 'O', 'o', 'P',
   'q', 'r', 'S', 't', 'U', 'u', 'y', 'Z',
   ' ', '_', '-', '=', '?', '[', ']', Char.ofNat 39, Char.ofNat 34, '*']

/-- Segment data table of the main sketch: one byte per entry of
`knownChars`, bit order "dcagxfeb" (MSB to LSB), plus one final
"not found" entry of all segments off. -/
def segData : List Nat :=
  [0b11100111,  -- 0
   0b01000001,  -- 1
   0b10110011,  -- 2
   0b11110001,  -- 3
   0b01010101,  -- 4
   0b11110100,  -- 5
   0b11110110,  -- 6
   0b01100001,  -- 7
   0b11110111,  -- 8
   0b11110101,  -- 9
   0b01110111,  -- A
   0b11010110,  -- b
   0b10100110,  -- C
   0b10010010,  -- c
   0b11010011,  -- d
   0b10110110,  -- E
   0b00110110,  -- F
   0b11100110,  -- G
   0b01010111,  -- H
   0b01010110,  -- h
   0b00000110,  -- I
   0b01000000,  -- i
   0b11000001,  -- J
   0b10000110,  -- L
   0b10000010,  -- l
   0b01100111,  -- N
   0b01010010,  -- n
   0b11100111,  -- O
   0b11010010,  -- o
   0b00110111,  -- P
   0b01110101,  -- q
   0b00010010,  -- r
   0b11110100,  -- S
   0b10010110,  -- t
   0b11000111,  -- U
   0b11000010,  -- u
   0b11010101,  -- y
   0b10110011,  -- Z
   0b00000000,  -- space
   0b10000000,  -- underscore
   0b00010000,  -- minus
   0b10010000,  -- equals
   0b00110011,  -- question mark
   0b10100110,  -- left bracket
   0b11100001,  -- right bracket
   0b00000100,  -- apostrophe
   0b00000101,  -- double quote
   0b00110101,  -- asterisk, shown as degree sign
   0b00000000]  -- not found

/-- Index at which the while loop of `alpha` stops: the position of the
first occurrence of `c` in the list, or the length of the list when `c`
does not occur in it. -/
def scanIdx (c : Char) : List Char → Nat
  | [] => 0
  | k :: rest => if c = k then 0 else scanIdx c rest + 1

/-- The function `alpha` of the main sketch: linear scan of `knownChars`
for the character, then an index into `segData` at the stopping position.
The stopping position is at most 48 and `segData` has 49 entries, so the
access is always in bounds and the `getD` default is never used. -/
def alpha (c : Char) : Nat :=
  segData.getD (scanIdx c knownChars) 0

/-- One observable event on the serial link: an SPI byte transfer, or an
edge on the latch line. -/
inductive SpiEvent where
  | transfer : Nat → SpiEvent
  | latchHigh : SpiEvent
  | latchLow : SpiEvent
  deriving DecidableEq, Repr

/-- Whether an event is an SPI byte transfer. -/
def SpiEvent.isTransfer : SpiEvent → Bool
  | SpiEvent.transfer _ => true
  | _ => false

/-- The event trace of `writeDisplay` in the main sketch: the loop
`for (int i=6; i>=0; --i) SPI.transfer(digit[i]);` followed by one latch
pulse.  The loop runs for i = 6, 5, 4, 3, 2, 1, 0, so its first iteration
reads `digit[6]`, one element past the end of the six-byte `digit` array;
`junk` stands for whatever byte sits at that out-of-bounds address. -/
def writeDisplay (d : List Nat) (junk : Nat) : List SpiEvent :=
  ((List.range 7).map fun k => SpiEvent.transfer ((d[6 - k]?).getD junk))
    ++ [SpiEvent.latchHigh, SpiEvent.latchLow]

/-- The duty-cycle table `data` local to `setBrightness`. -/
def brightnessData : List Nat :=
  [255, 172, 160, 140, 120, 100, 80, 60, 40, 20, 0]

/-- The function `setBrightness` of the main sketch, as a transformer of
the last PWM byte written to the OE pin (`none` = nothing written yet):
for a level between 0 and 10 it writes the table byte for that level,
otherwise it does nothing and the previous value stands. -/
def setBrightness (level : Int) (prev : Option Nat) : Option Nat :=
  if 0 ≤ level ∧ level ≤ 10 then some (brightnessData.getD level.toNat 0)
  else prev

/-- The 12-hour adjustment of `showTime`: `if (h==0) h=12;` then
`if (h>12) h-=12;`. -/
def adjust12 (h : Int) : Int :=
  let h1 : Int := if h = 0 then 12 else h
  if 12 < h1 then h1 - 12 else h1

/-- The hour value actually displayed: the 12-hour adjustment is applied
only in 12-hour mode. -/
def dispHour (h : Int) (tw : Bool) : Int :=
  if tw then adjust12 h else h

/-- Access `segData[i]` with a C `int` index: defined only when the index
is inside the 49-entry table, `none` modelling an out-of-bounds read. -/
def segAt (i : Int) : Option Nat :=
  if 0 ≤ i ∧ i < 49 then some (segData.getD i.toNat 0) else none

/-- The frame computed by `showTime` of the main sketch (the spec calls
it `encodeClock`), with the hour/minute/second fields and the two
configuration flags as parameters: `tw` is 12-hour mode and `sz` is
leading-zero suppression (the negation of `HOUR_LEADING_ZERO`).
Division and remainder are C truncated operations on `int`. -/
def showTime (h m s : Int) (tw sz : Bool) : Option (List Nat) :=
  (if dispHour h tw < 10 ∧ sz ∧ tw then some 0
   else segAt ((dispHour h tw).tdiv 10)).bind fun d0 =>
  (segAt ((dispHour h tw).tmod 10)).bind fun d1 =>
  (segAt (m.tdiv 10)).bind fun d2 =>
  (segAt (m.tmod 10)).bind fun d3 =>
  (segAt (s.tdiv 10)).bind fun d4 =>
  (segAt (s.tmod 10)).bind fun d5 =>
  some [d0, d1, d2, d3, d4, d5]

/-- The frame computed by `showDate` of the main sketch (the spec calls
it `encodeDate`): month, day, and the year reduced by 2000. -/
def showDate (mo da yr : Int) : Option (List Nat) :=
  (segAt (mo.tdiv 10)).bind fun d0 =>
  (segAt (mo.tmod 10)).bind fun d1 =>
  (segAt (da.tdiv 10)).bind fun d2 =>
  (segAt (da.tmod 10)).bind fun d3 =>
  (segAt ((yr - 2000).tdiv 10)).bind fun d4 =>
  (segAt ((yr - 2000).tmod 10)).bind fun d5 =>
  some [d0, d1, d2, d3, d4, d5]

/-- One assignment `digit[i] = v` of the frame buffer, defined only when
`i` is inside the buffer; `none` models an out-of-bounds write. -/
def setAt (f : List Nat) (i : Nat) (v : Nat) : Option (List Nat) :=
  if i < f.length then some (f.set i v) else none

/-- The loop of `showString`: write `alpha` of each character of the
string at successive buffer indices starting at `i`. -/
def writeChars : List Char → Nat → List Nat → Option (List Nat)
  | [], _, f => some f
  | c :: rest, i, f =>
    match setAt f i (alpha c) with
    | none => none
    | some f2 => writeChars rest (i + 1) f2

/-- The function `showString` of the main sketch (the spec calls it
`encodeMessage`), as a transformer of the frame buffer. -/
def showString (str : List Char) (frame : List Nat) : Option (List Nat) :=
  writeChars str 0 frame

/-- The numeric segment table `segments` of the simple six-digit clock
sketch (digits 0 to 9). -/
def segments : List Nat :=
  [0xE7, 0x41, 0xB3, 0xF1, 0x55, 0xF4, 0xF6, 0x61, 0xF7, 0xF5]

/-! Helper lemmas shared by the claim theorems. -/

/-- When a character is not in the list, the scan falls off the end. -/
theorem scanIdx_eq_length (c : Char) (l : List Char) (hl : c ∉ l) :
    scanIdx c l = l.length := by
  induction l with
  | nil => rfl
  | cons k rest ih =>
    simp only [List.mem_cons, not_or] at hl
    simp only [scanIdx, if_neg hl.1, List.length_cons]
    rw [ih hl.2]

/-- An in-bounds `segData` access succeeds. -/
theorem segAt_some (i : Int) (h0 : 0 ≤ i) (h1 : i < 49) :
    segAt i = some (segData.getD i.toNat 0) := by
  simp only [segAt, if_pos (And.intro h0 h1)]

/-- Bounds of C truncated division and remainder by 10 on a two-digit
nonnegative value. -/
theorem digits_in_range (x : Int) (h0 : 0 ≤ x) (h9 : x ≤ 99) :
    0 ≤ x.tdiv 10 ∧ x.tdiv 10 < 49 ∧ 0 ≤ x.tmod 10 ∧ x.tmod 10 < 49 := by
  rw [Int.tdiv_eq_ediv h0 (by decide), Int.tmod_eq_emod h0 (by decide)]
  omega

/-- The displayed hour stays between 0 and 23 for an in-range hour. -/
theorem dispHour_bounds (h : Int) (tw : Bool) (h0 : 0 ≤ h) (h23 : h ≤ 23) :
    0 ≤ dispHour h tw ∧ dispHour h tw ≤ 23 := by
  simp only [dispHour, adjust12]
  split_ifs <;> omega

/-- For in-range hour, minute, and second fields, `showTime` produces a
complete frame. -/
theorem showTime_total (h m s : Int) (tw sz : Bool)
    (hh0 : 0 ≤ h) (hh1 : h ≤ 23) (hm0 : 0 ≤ m) (hm1 : m ≤ 59)
    (hs0 : 0 ≤ s) (hs1 : s ≤ 59) :
    (showTime h m s tw sz).isSome := by
  obtain ⟨b0, b1⟩ := dispHour_bounds h tw hh0 hh1
  obtain ⟨q0, q1, r0, r1⟩ := digits_in_range (dispHour h tw) b0 (by omega)
  obtain ⟨a0, a1, a2, a3⟩ := digits_in_range m hm0 (by omega)
  obtain ⟨c0, c1, c2, c3⟩ := digits_in_range s hs0 (by omega)
  simp only [showTime]
  rw [segAt_some _ q0 q1, segAt_some _ r0 r1, segAt_some _ a0 a1,
    segAt_some _ a2 a3, segAt_some _ c0 c1, segAt_some _ c2 c3]
  split_ifs <;> simp

/-- For in-range month, day, and year fields, `showDate` produces a
complete frame. -/
theorem showDate_total (mo da yr : Int)
    (hmo0 : 1 ≤ mo) (hmo1 : mo ≤ 12) (hda0 : 1 ≤ da) (hda1 : da ≤ 31)
    (hyr0 : 2000 ≤ yr) (hyr1 : yr ≤ 2099) :
    (showDate mo da yr).isSome := by
  obtain ⟨a0, a1, a2, a3⟩ := digits_in_range mo (by omega) (by omega)
  obtain ⟨b0, b1, b2, b3⟩ := digits_in_range da (by omega) (by omega)
  obtain ⟨c0, c1, c2, c3⟩ := digits_in_range (yr - 2000) (by omega) (by omega)
  simp only [showDate]
  rw [segAt_some _ a0 a1, segAt_some _ a2 a3, segAt_some _ b0 b1,
    segAt_some _ b2 b3, segAt_some _ c0 c1, segAt_some _ c2 c3]
  simp

/-- Full description of the loop of `showString`: when the writes fit in
the buffer, the loop succeeds, preserves the length, leaves every index
outside the written window unchanged, and stores the glyph of the k-th
character at index i + k. -/
theorem writeChars_spec (str : List Char) : ∀ (i : Nat) (f : List Nat),
    i + str.length ≤ f.length →
    ∃ f2, writeChars str i f = some f2 ∧ f2.length = f.length ∧
      (∀ j, j < i ∨ i + str.length ≤ j → f2[j]? = f[j]?) ∧
      (∀ k, k < str.length → f2[i + k]? = (str[k]?).map alpha) := by
  induction str with
  | nil =>
    intro i f hle
    exact ⟨f, rfl, rfl, fun j _ => rfl, fun k hk => absurd hk (by simp)⟩
  | cons c rest ih =>
    intro i f hle
    simp only [List.length_cons] at hle
    have hi : i < f.length := by omega
    have hset : setAt f i (alpha c) = some (f.set i (alpha c)) := by
      simp only [setAt, if_pos hi]
    obtain ⟨f2, h1, h2, h3, h4⟩ := ih (i + 1) (f.set i (alpha c))
      (by simp only [List.length_set]; omega)
    refine ⟨f2, ?_, by simp only [List.length_set] at h2; exact h2, ?_, ?_⟩
    · simp only [writeChars, hset, h1]
    · intro j hj
      simp only [List.length_cons] at hj
      have hji : i ≠ j := by omega
      have hj2 : j < i + 1 ∨ (i + 1) + rest.length ≤ j := by omega
      rw [h3 j hj2, List.getElem?_set_ne hji]
    · intro k hk
      match k with
      | 0 =>
        have h5 : f2[i + 0]? = (f.set i (alpha c))[i + 0]? :=
          h3 (i + 0) (by omega)
        rw [h5]
        simp only [Nat.add_zero, List.getElem?_set_self hi,
          List.getElem?_cons_zero]
        rfl
      | Nat.succ k2 =>
        have hkeq : i + (k2 + 1) = (i + 1) + k2 := by omega
        rw [hkeq, h4 k2 (by simp only [List.length_cons] at hk; omega)]
        simp only [List.getElem?_cons_succ]

/-! Claim theorems. -/

/-- C1 (code bug): on the six-byte frame [1,2,3,4,5,6], `writeDisplay`
performs seven SPI transfers, not six: its loop runs from i = 6 down to
i = 0, so the first transfer sends the out-of-bounds byte `digit[6]`
(here 99) and only then the six frame bytes in reverse position order,
before the single latch pulse. -/
theorem writeDisplay_seven_transfers :
    writeDisplay [1, 2, 3, 4, 5, 6] 99 =
      [SpiEvent.transfer 99, SpiEvent.transfer 6, SpiEvent.transfer 5,
       SpiEvent.transfer 4, SpiEvent.transfer 3, SpiEvent.transfer 2,
       SpiEvent.transfer 1, SpiEvent.latchHigh, SpiEvent.latchLow] ∧
    ((writeDisplay [1, 2, 3, 4, 5, 6] 99).countP SpiEvent.isTransfer) = 7 := by
  decide

/-- C2 (counterexample): at midnight in 12-hour mode with leading-zero
suppression on, the frame is not [blank, glyph 2, glyph 0, glyph 0,
glyph 0, glyph 0] as the claim states. -/
theorem showTime_midnight_cex :
    showTime 0 0 0 true true ≠
      some [0b00000000, 0b10110011, 0b11100111, 0b11100111,
            0b11100111, 0b11100111] := by
  decide

/-- C2 (amended): at midnight in 12-hour mode with leading-zero
suppression on, hour 0 is displayed as 12; 12 is not a single-digit
hour, so the suppression does not fire and the frame shows the digits
1, 2, 0, 0, 0, 0. -/
theorem showTime_midnight :
    showTime 0 0 0 true true =
      some [0b01000001, 0b10110011, 0b11100111, 0b11100111,
            0b11100111, 0b11100111] := by
  decide

/-- C3 (counterexample): the duty bytes applied by `setBrightness` at
levels 0, 5, and 10 are 255, 100, and 0: they are not monotonically
increasing in the level. -/
theorem setBrightness_not_increasing :
    setBrightness 0 none = some 255 ∧ setBrightness 5 none = some 100 ∧
    setBrightness 10 none = some 0 ∧
    ¬ (setBrightness 0 none).getD 0 < (setBrightness 5 none).getD 0 := by
  decide

/-- C3 (amended): the duty table applied by `setBrightness` is strictly
monotonically decreasing in the level; levels 0, 5, and 10 apply the
three distinct values 255, 100, and 0.  The OE line is active low, so
the byte 255 at level 0 holds the line high (display always off) and the
byte 0 at level 10 holds it low (full brightness). -/
theorem setBrightness_decreasing :
    (∀ i : Fin 10, brightnessData.getD (i.val + 1) 0 <
      brightnessData.getD i.val 0) ∧
    setBrightness 0 none = some 255 ∧ setBrightness 5 none = some 100 ∧
    setBrightness 10 none = some 0 := by
  decide

/-- C4 (counterexample): `showDate` is not total: on a date with year
1970 (reachable while no network time has been received yet) the year
field becomes 1970 - 2000 = -30 and the table access at index
(-30)/10 = -3 leaves the bounds of `segData`. -/
theorem showDate_oob : showDate 1 1 1970 = none := by
  decide

/-- C4 (amended): the encoders are total on in-range fields: for every
hour 0-23, minute and second 0-59, and either mode flags, `showTime`
produces a complete frame; for every month 1-12, day 1-31, and year
2000-2099, `showDate` produces a complete frame; and `showString`
produces a complete frame for every string of at most 6 arbitrary
characters. -/
theorem encoders_total (h m s mo da yr : Int) (tw sz : Bool)
    (str : List Char) (frame : List Nat)
    (hh0 : 0 ≤ h) (hh1 : h ≤ 23) (hm0 : 0 ≤ m) (hm1 : m ≤ 59)
    (hs0 : 0 ≤ s) (hs1 : s ≤ 59)
    (hmo0 : 1 ≤ mo) (hmo1 : mo ≤ 12) (hda0 : 1 ≤ da) (hda1 : da ≤ 31)
    (hyr0 : 2000 ≤ yr) (hyr1 : yr ≤ 2099)
    (hstr : str.length ≤ 6) (hfr : frame.length = 6) :
    (showTime h m s tw sz).isSome ∧ (showDate mo da yr).isSome ∧
    (showString str frame).isSome := by
  refine ⟨showTime_total h m s tw sz hh0 hh1 hm0 hm1 hs0 hs1,
    showDate_total mo da yr hmo0 hmo1 hda0 hda1 hyr0 hyr1, ?_⟩
  obtain ⟨f2, hf2, -, -, -⟩ := writeChars_spec str 0 frame (by omega)
  simp only [showString, hf2, Option.isSome_some]

/-- Witness for C4: the amended totality theorem applied at concrete
in-range inputs. -/
theorem encoders_total_witness :
    (showTime 0 0 0 true true).isSome ∧ (showDate 6 22 2023).isSome ∧
    (showString ['H', 'I'] [0, 0, 0, 0, 0, 0]).isSome :=
  encoders_total 0 0 0 6 22 2023 true true ['H', 'I'] [0, 0, 0, 0, 0, 0]
    (by decide) (by decide) (by decide) (by decide) (by decide) (by decide)
    (by decide) (by decide) (by decide) (by decide) (by decide) (by decide)
    (by decide) (by decide)

/-- C5: for every character outside the declared alphabet, `alpha`
returns the reserved not-found pattern 0b00000000: the scan falls off
the end of `knownChars` and hits the final all-off entry of `segData`. -/
theorem alpha_not_found (c : Char) (hc : c ∉ knownChars) : alpha c = 0 := by
  unfold alpha
  rw [scanIdx_eq_length c knownChars hc]
  rfl

/-- Witness for C5: the character X is not in the alphabet, and `alpha`
maps it to 0. -/
theorem alpha_not_found_witness :
    ('X' ∉ knownChars) ∧ alpha 'X' = 0 :=
  ⟨by decide, alpha_not_found 'X' (by decide)⟩

/-- C6: for every character of the declared alphabet, `alpha` returns
the `segData` entry at the index of that character; in particular the
digit 0, the letter A, and the space map to their documented patterns. -/
theorem alpha_known (i : Fin knownChars.length) :
    alpha (knownChars.get i) = segData.getD i.val 0 ∧
    alpha '0' = 0b11100111 ∧ alpha 'A' = 0b01110111 ∧ alpha ' ' = 0 := by
  revert i
  decide

/-- Witness for C6: the table agreement theorem applied at index 0. -/
theorem alpha_known_witness :
    alpha (knownChars.get ⟨0, by decide⟩) = segData.getD 0 0 ∧
    alpha '0' = 0b11100111 ∧ alpha 'A' = 0b01110111 ∧ alpha ' ' = 0 :=
  alpha_known ⟨0, by decide⟩

/-- C7: `setBrightness` ignores every out-of-range level, leaving the
previously applied duty value unchanged, and for every level 0-10 it
applies the table byte for that level. -/
theorem setBrightness_contract (level : Int) (prev : Option Nat) :
    (level < 0 ∨ 10 < level → setBrightness level prev = prev) ∧
    (0 ≤ level → level ≤ 10 →
      setBrightness level prev = some (brightnessData.getD level.toNat 0)) := by
  constructor
  · intro hoob
    simp only [setBrightness]
    rw [if_neg]
    omega
  · intro h0 h1
    simp only [setBrightness, if_pos (And.intro h0 h1)]

/-- Witness for C7: level 11 leaves a previously applied duty of 42
unchanged. -/
theorem setBrightness_contract_witness :
    setBrightness 11 (some 42) = some 42 :=
  (setBrightness_contract 11 (some 42)).1 (by decide)

/-- C8: for every hour 0-23 the 12-hour adjustment maps 0 to 12, hours
above 12 to hour minus 12, and other hours to themselves; concretely,
13:05:09 in 12-hour mode without suppression shows the digits
0,1,0,5,0,9 and 23:59:00 in 24-hour mode shows 2,3,5,9,0,0. -/
theorem showTime_hour_policy (h : Int) (sz : Bool)
    (h0 : 0 ≤ h) (h23 : h ≤ 23) :
    adjust12 h = (if h = 0 then 12 else if 12 < h then h - 12 else h) ∧
    showTime 13 5 9 true false =
      some [0b11100111, 0b01000001, 0b11100111, 0b11110100,
            0b11100111, 0b11110101] ∧
    showTime 23 59 0 false sz =
      some [0b10110011, 0b11110001, 0b11110100, 0b11110101,
            0b11100111, 0b11100111] := by
  refine ⟨?_, by decide, ?_⟩
  · simp only [adjust12]
    split_ifs <;> omega
  · cases sz <;> decide

/-- Witness for C8: the hour policy theorem applied at hour 13 with
suppression off. -/
theorem showTime_hour_policy_witness :
    adjust12 13 = (if (13 : Int) = 0 then 12
      else if 12 < (13 : Int) then 13 - 12 else 13) ∧
    showTime 13 5 9 true false =
      some [0b11100111, 0b01000001, 0b11100111, 0b11110100,
            0b11100111, 0b11110101] ∧
    showTime 23 59 0 false false =
      some [0b10110011, 0b11110001, 0b11110100, 0b11110101,
            0b11100111, 0b11100111] :=
  showTime_hour_policy 13 false (by decide) (by decide)

/-- C9: for every digit 0-9, the numeric table `segments` of the simple
clock sketch agrees with `alpha` applied to the character form of the
digit. -/
theorem segments_match_alpha (d : Fin 10) :
    segments[d.val]? = some (alpha (Char.ofNat (48 + d.val))) := by
  revert d
  decide

/-- Witness for C9: the table agreement applied at digit 0. -/
theorem segments_match_alpha_witness :
    segments[(0 : Fin 10).val]? =
      some (alpha (Char.ofNat (48 + (0 : Fin 10).val))) :=
  segments_match_alpha 0

/-- C10: on a 6-position frame, `showString` with a string of length
n ≤ 6 succeeds, writes the glyphs of the string at positions 0 to n-1,
and leaves every position from n to 5 exactly as it was. -/
theorem showString_frame_effect (str : List Char) (frame : List Nat)
    (hf : frame.length = 6) (hs : str.length ≤ 6) :
    ∃ f2, showString str frame = some f2 ∧ f2.length = 6 ∧
      (∀ i, i < str.length → f2[i]? = (str[i]?).map alpha) ∧
      (∀ i, str.length ≤ i → f2[i]? = frame[i]?) := by
  obtain ⟨f2, h1, h2, h3, h4⟩ := writeChars_spec str 0 frame (by omega)
  refine ⟨f2, h1, by omega, ?_, ?_⟩
  · intro i hi
    have := h4 i hi
    simpa using this
  · intro i hi
    exact h3 i (Or.inr (by omega))

/-- Witness for C10: the frame-effect theorem applied to the string HI
over the frame [1,2,3,4,5,6]. -/
theorem showString_frame_effect_witness :
    ∃ f2, showString ['H', 'I'] [1, 2, 3, 4, 5, 6] = some f2 ∧
      f2.length = 6 ∧
      (∀ i, i < (['H', 'I'] : List Char).length →
        f2[i]? = ((['H', 'I'] : List Char)[i]?).map alpha) ∧
      (∀ i, (['H', 'I'] : List Char).length ≤ i →
        f2[i]? = ([1, 2, 3, 4, 5, 6] : List Nat)[i]?) :=
  showString_frame_effect ['H', 'I'] [1, 2, 3, 4, 5, 6] (by decide) (by decide)

end Numitron
